import Mathlib

/-!
# Verification of the lighthouse beacon-chain engine specification

A shallow embedding of the chain-state engine in
`beacon_node/beacon_chain/src/beacon_chain.rs`, together with theorems that
settle the frozen claims about it.

Conventions of the embedding:
* Machine values (`Hash256`, `ExecutionBlockHash`, `Slot`, `Epoch`) are
  modelled as `Nat`; no arithmetic in the modelled routines overflows at
  these widths, so this is faithful.
* Fallible operations return `Except`.
* External collaborators (store, external fork-choice scoring structure,
  execution engine, locks, channels) are modelled as explicit inputs: the
  result each collaborator call would return is a field of an environment
  record, and the modelled routine consumes those results in exactly the
  order and under exactly the conditions of the source.
* Effects on the chain (head swaps, cache clears, persistence, events,
  shutdown requests) are tracked in explicit state records.

`slots_per_epoch` is a compile-time parameter of the source (32 on
mainnet); it is fixed to 32 here.
-/

instance {ε α : Type} [DecidableEq ε] [DecidableEq α] : DecidableEq (Except ε α) := fun x y =>
  match x, y with
  | .ok a, .ok b =>
    if h : a = b then .isTrue (by rw [h])
    else .isFalse (by intro hc; cases hc; exact h rfl)
  | .error a, .error b =>
    if h : a = b then .isTrue (by rw [h])
    else .isFalse (by intro hc; cases hc; exact h rfl)
  | .ok _, .error _ => .isFalse (by intro hc; cases hc)
  | .error _, .ok _ => .isFalse (by intro hc; cases hc)

def slotsPerEpoch : Nat := 32

/-- `Slot::epoch(slots_per_epoch)`: the epoch containing a slot. -/
def epochOfSlot (slot : Nat) : Nat := slot / slotsPerEpoch

/-- `Epoch::start_slot(slots_per_epoch)`: the first slot of an epoch. -/
def startSlotOfEpoch (epoch : Nat) : Nat := epoch * slotsPerEpoch

/-! ## Block import tail (`import_block`, the atomic database write)

The final section of `import_block`: the atomic write of the block, its
state and the pending confirmation ops, the rollback of the in-memory
fork-choice structure on write failure, and — only after a successful
write — head-tracker registration and the block-imported event. -/

inductive ImportError where
  | dbWriteError
  | loadForkChoiceError
  deriving Repr, DecidableEq

/-- State visible to the import tail: the in-memory fork-choice structure
(represented abstractly by a `Nat` version tag — `import_block` has already
mutated it to include the new block), the head tracker and the emitted
block-imported events. -/
structure ImportState where
  forkChoice : Nat
  headTracker : List (Nat × Nat × Nat)
  events : List (Nat × Nat)
  deriving Repr, DecidableEq

/-- Collaborator results for the import tail:
`dbWrite` is the outcome of `store.do_atomically(ops)`;
`loadForkChoice` is the outcome of `load_fork_choice(store)`, which can
itself fail, succeed with a persisted snapshot, or succeed with none. -/
structure ImportEnv where
  dbWrite : Except Unit Unit
  loadForkChoice : Except Unit (Option Nat)
  hasBlockSubscribers : Bool
  deriving Repr, DecidableEq

/-- `import_block`, from the `store.do_atomically(ops)` call onwards
(beacon_chain.rs:2824-2913).  On a failed write the fork choice is
restored from the persisted snapshot when one loads (a missing snapshot is
only logged), and the database error is returned; the head tracker and
event handler are only reached after a successful write. -/
def importBlockTail (env : ImportEnv) (blockRoot parentRoot slot : Nat)
    (s : ImportState) : ImportState × Except ImportError Nat :=
  match env.dbWrite with
  | .error _ =>
    match env.loadForkChoice with
    | .error _ => (s, .error .loadForkChoiceError)
    | .ok (some persisted) =>
      ({ s with forkChoice := persisted }, .error .dbWriteError)
    | .ok none => (s, .error .dbWriteError)
  | .ok _ =>
    let s := { s with headTracker := s.headTracker ++ [(blockRoot, parentRoot, slot)] }
    let s :=
      if env.hasBlockSubscribers then
        { s with events := s.events ++ [(slot, blockRoot)] }
      else s
    (s, .ok blockRoot)

/-! ## Block production size guard (`produce_block_on_state`)

The tail of `produce_block_on_state` after the unsigned candidate block is
assembled (beacon_chain.rs:3239-3266): the SSZ size check precedes the
`per_block_processing` call. -/

inductive ProduceError where
  | blockTooLarge (size : Nat)
  | perBlockProcessingError
  deriving Repr, DecidableEq

structure ProduceEnv where
  maxNetworkSize : Nat
  /-- Outcome of the external state-transition function `per_block_processing`. -/
  perBlockProcessingOk : Bool
  deriving Repr, DecidableEq

/-- The size check and state-transition call of `produce_block_on_state`.
`blockSize` is `block.ssz_bytes_len()` of the assembled candidate.  The
returned `Bool` records whether `per_block_processing` was invoked. -/
def produceBlockSizeGuard (env : ProduceEnv) (blockSize : Nat) :
    Except ProduceError Unit × Bool :=
  if blockSize > env.maxNetworkSize then
    (.error (.blockTooLarge blockSize), false)
  else if env.perBlockProcessingOk then
    (.ok (), true)
  else
    (.error .perBlockProcessingError, true)

/-! ## Canonical block-root lookup (`block_root_at_slot`)

`block_root_at_slot` dispatches on the skip-slot mode and converts
`HistoricalBlockError` into `Ok(None)`.  Both mode-specific functions
start with the same two guards (future slot, genesis slot); everything
after those guards (head-state fast path, forwards iterators) is
irrelevant to the claim and is modelled as an arbitrary remaining
outcome, so the theorems hold for every behaviour of that remainder. -/

inductive WhenSlotSkipped where
  | none
  | prev
  deriving Repr, DecidableEq

inductive RootLookupError where
  | historicalBlockError
  | otherError
  deriving Repr, DecidableEq

structure RootLookupEnv where
  /-- `self.slot()`: the current wall-clock slot (callers only reach the
  body when the slot clock reads successfully, which implies the result is
  at least the genesis slot). -/
  currentSlot : Nat
  genesisSlot : Nat
  genesisBlockRoot : Nat
  /-- The remainder of `block_root_at_slot_skips_none` after its two
  leading guards, abstracted as an arbitrary outcome. -/
  restSkipsNone : Except RootLookupError (Option Nat)
  /-- The remainder of `block_root_at_slot_skips_prev` after its two
  leading guards, abstracted as an arbitrary outcome. -/
  restSkipsPrev : Except RootLookupError (Option Nat)
  deriving Repr, DecidableEq

/-- `block_root_at_slot_skips_none` (beacon_chain.rs:841-892), with the
part after the two leading guards abstracted. -/
def blockRootAtSlotSkipsNone (env : RootLookupEnv) (requestSlot : Nat) :
    Except RootLookupError (Option Nat) :=
  if requestSlot > env.currentSlot then .ok none
  else if requestSlot = env.genesisSlot then .ok (some env.genesisBlockRoot)
  else env.restSkipsNone

/-- `block_root_at_slot_skips_prev` (beacon_chain.rs:904-935), with the
part after the two leading guards abstracted. -/
def blockRootAtSlotSkipsPrev (env : RootLookupEnv) (requestSlot : Nat) :
    Except RootLookupError (Option Nat) :=
  if requestSlot > env.currentSlot then .ok none
  else if requestSlot = env.genesisSlot then .ok (some env.genesisBlockRoot)
  else env.restSkipsPrev

/-- `block_root_at_slot` (beacon_chain.rs:816-829): dispatch on the skip
mode, then convert `HistoricalBlockError` into `Ok(None)`. -/
def blockRootAtSlot (env : RootLookupEnv) (requestSlot : Nat)
    (skips : WhenSlotSkipped) : Except RootLookupError (Option Nat) :=
  let r :=
    match skips with
    | .none => blockRootAtSlotSkipsNone env requestSlot
    | .prev => blockRootAtSlotSkipsPrev env requestSlot
  match r with
  | .error .historicalBlockError => .ok none
  | other => other

/-! ## Fork-choice head selection (`fork_choice_internal`)

The head-selection routine, `fork_choice_internal`
(beacon_chain.rs:3385-3758).  The external fork-choice scoring structure,
the store, the head lock, the shutdown channel, persistence and the
execution engine are collaborators whose results are environment fields;
the routine consumes them in the order of the source. -/

inductive ExecutionStatus where
  | valid (blockHash : Nat)
  | invalid (blockHash : Nat)
  | optimistic (blockHash : Nat)
  | irrelevant
  deriving Repr, DecidableEq

/-- `ExecutionStatus::is_invalid`. -/
def ExecutionStatus.isInvalid : ExecutionStatus → Bool
  | .invalid _ => true
  | _ => false

/-- `ExecutionStatus::block_hash`. -/
def ExecutionStatus.blockHash : ExecutionStatus → Option Nat
  | .valid h => some h
  | .invalid h => some h
  | .optimistic h => some h
  | .irrelevant => none

/-- A block as tracked by the external fork-choice structure
(`get_finalized_block` / `get_justified_block` results). -/
structure ProtoBlock where
  root : Nat
  executionStatus : ExecutionStatus
  deriving Repr, DecidableEq

/-- `PayloadStatus`: the execution engine's response to
`notify_forkchoice_updated`. -/
inductive PayloadStatus where
  | valid
  | invalid (latestValidHash : Option Nat)
  | syncing
  | accepted
  | invalidBlockHash
  | invalidTerminalBlock
  deriving Repr, DecidableEq

/-- `InvalidationOperation`: argument of
`process_invalid_execution_payload` / `on_invalid_execution_payload`. -/
inductive InvalidationOperation where
  | invalidateOne (blockRoot : Nat)
  | invalidateMany (headBlockRoot : Nat) (alwaysInvalidateHead : Bool)
      (latestValidAncestor : Option Nat)
  deriving Repr, DecidableEq

inductive FcError where
  | forkChoiceError
  | canonicalHeadLockTimeout
  | revertedFinalizedEpoch (previousEpoch newEpoch : Nat)
  | invalidFinalizedPayload (finalizedRoot blockHash : Nat)
  | invalidFinalizedPayloadShutdownError
  | missingBeaconBlock
  | persistError
  | finalizationError
  | unableToReadSlot
  | justifiedPayloadInvalid (justifiedRoot : Nat) (blockHash : Option Nat)
  | runtimeShutdown
  | executionForkChoiceUpdateInvalid (status : PayloadStatus)
  deriving Repr, DecidableEq

/-- The data `fork_choice_internal` reads from the new head snapshot it
loads from the store: the block slot, the state's finalized checkpoint,
and `beacon_state.get_block_root(current_head.slot)` (used for re-org
detection; `none` models an `Err` from `get_block_root`). -/
structure NewHeadData where
  slot : Nat
  finalizedEpoch : Nat
  finalizedRoot : Nat
  rootAtOldHeadSlot : Option Nat
  deriving Repr, DecidableEq

/-- The condensed head summary the routine keeps (the fields of
`HeadInfo` that head selection reads). -/
structure HeadSnap where
  blockRoot : Nat
  slot : Nat
  finalizedEpoch : Nat
  finalizedRoot : Nat
  deriving Repr, DecidableEq

/-- Chain-engine state threaded through head selection and the
invalidation routines.  Counters record how many times each effect has
been performed; the two lists record the fork-choice mutations issued by
the execution-engine synchronization protocol. -/
structure ChainState where
  head : HeadSnap
  /-- Number of `fork_choice_internal` runs (entry counter). -/
  fciRuns : Nat
  /-- Number of `early_attester_cache.clear()` calls. -/
  earlyAttesterClears : Nat
  /-- Number of successful `persist_head_and_fork_choice` calls. -/
  persists : Nat
  /-- Number of completed finalization-change handlings
  (`after_finalization` and the finalized-state-root recomputation). -/
  finalizations : Nat
  /-- Number of execution-engine forkchoice-update attempts. -/
  engineNotifies : Nat
  /-- Number of proposer-preparation attempts. -/
  proposerPreps : Nat
  /-- Number of process-shutdown requests pushed at the shutdown channel. -/
  shutdownSends : Nat
  /-- `on_invalid_execution_payload` calls issued to fork choice, in order. -/
  invalidationCalls : List InvalidationOperation
  /-- `on_valid_execution_payload` calls issued to fork choice, in order. -/
  validatedPayloads : List Nat
  deriving Repr, DecidableEq

/-- Collaborator outcomes for one `fork_choice_internal` run. -/
structure FciEnv where
  /-- `fork_choice.get_head(slot, spec)`. -/
  getHead : Except FcError Nat
  /-- `fork_choice.get_finalized_block()`. -/
  getFinalized : Except FcError ProtoBlock
  /-- Whether the `head_info()` read lock is acquired in time. -/
  headLockOk : Bool
  /-- Whether `shutdown_sender.try_send` succeeds. -/
  shutdownSendOk : Bool
  /-- Loading the new head snapshot from the store (block, state,
  committee caches). -/
  loadNewHead : Except FcError NewHeadData
  /-- Whether the canonical-head write lock is acquired in time. -/
  headWriteLockOk : Bool
  /-- Whether `persist_head_and_fork_choice` and the attestation-pool
  pruning succeed. -/
  persistOk : Bool
  /-- Whether the finalization handling (head re-read, finalized state
  root search, `after_finalization`) succeeds. -/
  finalizationOk : Bool
  /-- Whether `self.slot()` reads successfully before the engine update. -/
  wallSlotOk : Bool
  deriving Repr, DecidableEq

/-- `beacon_state.get_block_root(current_head.slot)` disagreeing with the
current head root (or erroring) classifies the head change as a re-org
(beacon_chain.rs:3457-3460). -/
def detectReorg (newHead : NewHeadData) (currentHead : HeadSnap) : Bool :=
  match newHead.rootAtOldHeadSlot with
  | none => true
  | some r => r != currentHead.blockRoot

/-- The enthronement section of `fork_choice_internal`
(beacon_chain.rs:3511-3758), entered once the reverted-finalized-epoch
check has passed: clear the early-attester cache, swap the canonical head
snapshot, persist on an epoch transition or re-org, handle a
finalization-epoch change, then notify the execution engine and refresh
proposer preparation (failures of the last two are logged, not
propagated). -/
def fciRunSwap (env : FciEnv) (beaconBlockRoot : Nat) (newHead : NewHeadData)
    (s0 : ChainState) : ChainState × Except FcError Unit :=
  let isReorg := detectReorg newHead s0.head
  let isEpochTransition := epochOfSlot s0.head.slot < epochOfSlot newHead.slot
  let oldFinalizedEpoch := s0.head.finalizedEpoch
  let s := { s0 with earlyAttesterClears := s0.earlyAttesterClears + 1 }
  if !env.headWriteLockOk then (s, .error .canonicalHeadLockTimeout) else
  let s := { s with head :=
    { blockRoot := beaconBlockRoot
      slot := newHead.slot
      finalizedEpoch := newHead.finalizedEpoch
      finalizedRoot := newHead.finalizedRoot } }
  if (isEpochTransition || isReorg) && !env.persistOk then
    (s, .error .persistError)
  else
  let s :=
    if isEpochTransition || isReorg then { s with persists := s.persists + 1 } else s
  if newHead.finalizedEpoch != oldFinalizedEpoch && !env.finalizationOk then
    (s, .error .finalizationError)
  else
  let s :=
    if newHead.finalizedEpoch != oldFinalizedEpoch then
      { s with finalizations := s.finalizations + 1 }
    else s
  if !env.wallSlotOk then (s, .error .unableToReadSlot) else
  let s := { s with engineNotifies := s.engineNotifies + 1 }
  let s := { s with proposerPreps := s.proposerPreps + 1 }
  (s, .ok ())

/-- `fork_choice_internal(slot)` (beacon_chain.rs:3385-3758).

Source order, faithfully: obtain the candidate head root and the
finalized block from fork choice; read the current head summary; return
`Ok` if the head is unchanged; reject an `Invalid` finalized payload with
a shutdown request; load the new head snapshot; reject a reverted
finalized epoch; then enthrone the new head (`fciRunSwap`). -/
def fciRun (env : FciEnv) (s0 : ChainState) : ChainState × Except FcError Unit :=
  let s := { s0 with fciRuns := s0.fciRuns + 1 }
  match env.getHead with
  | .error e => (s, .error e)
  | .ok beaconBlockRoot =>
  match env.getFinalized with
  | .error e => (s, .error e)
  | .ok finalizedBlock =>
  if !env.headLockOk then (s, .error .canonicalHeadLockTimeout) else
  if beaconBlockRoot = s.head.blockRoot then (s, .ok ()) else
  match finalizedBlock.executionStatus with
  | .invalid blockHash =>
    let s := { s with shutdownSends := s.shutdownSends + 1 }
    if env.shutdownSendOk then
      (s, .error (.invalidFinalizedPayload finalizedBlock.root blockHash))
    else
      (s, .error .invalidFinalizedPayloadShutdownError)
  | _ =>
  match env.loadNewHead with
  | .error e => (s, .error e)
  | .ok newHead =>
  if newHead.finalizedEpoch < s.head.finalizedEpoch then
    (s, .error (.revertedFinalizedEpoch s.head.finalizedEpoch newHead.finalizedEpoch))
  else
    fciRunSwap env beaconBlockRoot newHead s

/-- Run a sequence of head selections (one environment per run). -/
def fciRunSeq : List FciEnv → ChainState → ChainState
  | [], s => s
  | env :: envs, s => fciRunSeq envs (fciRun env s).1

/-- Every run in a sequence of head selections succeeds. -/
def FciAllOk : List FciEnv → ChainState → Prop
  | [], _ => True
  | env :: envs, s => (fciRun env s).2 = .ok () ∧ FciAllOk envs (fciRun env s).1

/-! ## Invalid-payload processing (`process_invalid_execution_payload`) -/

/-- Collaborator outcomes for one `process_invalid_execution_payload`
call: the environment for the inner head-selection re-run, and the
`fork_choice.get_justified_block()` read. -/
structure PiEnv where
  fci : FciEnv
  getJustified : Except FcError ProtoBlock
  deriving Repr, DecidableEq

/-- `process_invalid_execution_payload(op)` (beacon_chain.rs:3295-3361).

Applies `op` to fork choice via `on_invalid_execution_payload` (a failure
there is only logged), re-runs head selection (a failure there is only
logged), then reads the justified block: if its execution status is
invalid, a shutdown request is pushed (send failures only logged) and
`JustifiedPayloadInvalid` is returned; otherwise `Ok`. -/
def processInvalidExecutionPayload (env : PiEnv) (op : InvalidationOperation)
    (s0 : ChainState) : ChainState × Except FcError Unit :=
  let s := { s0 with invalidationCalls := s0.invalidationCalls ++ [op] }
  let s := (fciRun env.fci s).1
  match env.getJustified with
  | .error e => (s, .error e)
  | .ok justifiedBlock =>
    if justifiedBlock.executionStatus.isInvalid then
      let s := { s with shutdownSends := s.shutdownSends + 1 }
      (s, .error (.justifiedPayloadInvalid justifiedBlock.root
        justifiedBlock.executionStatus.blockHash))
    else
      (s, .ok ())

/-! ## Execution-engine response handling
(`update_execution_engine_forkchoice_async`)

The handling of the `notify_forkchoice_updated` response
(beacon_chain.rs:4133-4231).  The call itself, the two-lock handoff and
the pre-Bellatrix early returns are upstream of this match and do not
affect which arm runs. -/

structure FcuEnv where
  /-- Environment for the invalidation pass spawned on an invalid
  response. -/
  pi : PiEnv
  /-- Whether `spawn_blocking_handle` yields a handle (a `None` handle
  means the runtime is shutting down). -/
  spawnOk : Bool
  deriving Repr, DecidableEq

/-- The `match forkchoice_updated_response` arm of
`update_execution_engine_forkchoice_async`:
`Valid` applies `on_valid_execution_payload(head_block_root)`;
`Syncing`/`Accepted` change nothing; the three invalid responses run an
invalidation pass and return `ExecutionForkChoiceUpdateInvalid` (unless
the pass itself fails, whose error propagates instead). -/
def handleForkchoiceUpdatedResponse (env : FcuEnv) (headBlockRoot : Nat)
    (status : PayloadStatus) (s : ChainState) : ChainState × Except FcError Unit :=
  match status with
  | .valid =>
    ({ s with validatedPayloads := s.validatedPayloads ++ [headBlockRoot] }, .ok ())
  | .syncing => (s, .ok ())
  | .accepted => (s, .ok ())
  | .invalid latestValidHash =>
    if !env.spawnOk then (s, .error .runtimeShutdown) else
    let (s', r) := processInvalidExecutionPayload env.pi
      (.invalidateMany headBlockRoot true latestValidHash) s
    match r with
    | .error e => (s', .error e)
    | .ok _ => (s', .error (.executionForkChoiceUpdateInvalid status))
  | .invalidBlockHash =>
    if !env.spawnOk then (s, .error .runtimeShutdown) else
    let (s', r) := processInvalidExecutionPayload env.pi
      (.invalidateOne headBlockRoot) s
    match r with
    | .error e => (s', .error e)
    | .ok _ => (s', .error (.executionForkChoiceUpdateInvalid status))
  | .invalidTerminalBlock =>
    if !env.spawnOk then (s, .error .runtimeShutdown) else
    let (s', r) := processInvalidExecutionPayload env.pi
      (.invalidateOne headBlockRoot) s
    match r with
    | .error e => (s', .error e)
    | .ok _ => (s', .error (.executionForkChoiceUpdateInvalid status))

/-! ## Batch import (`process_chain_segment`)

The segment importer (beacon_chain.rs:2254-2391).  A block of the segment
is represented by the data the importer consults: its slot, parent root,
computed root (`get_block_root`), and the outcomes of the per-block
collaborator checks — fork-shape consistency (`block.fork_name(spec)`),
relevancy (`check_block_relevancy`), batch signature verification
(`signature_verify_chain_segment`) and full verification plus import
(`process_block`).  The store is the ordered list of imported roots. -/

/-- The classification `check_block_relevancy` returns for a block. -/
inductive Relevancy where
  | relevant
  | alreadyKnown
  | genesisBlock
  | wouldRevertFinalizedSlot
  | notFinalizedDescendant
  | beaconChainError
  | irrelevant
  deriving Repr, DecidableEq

structure SegBlock where
  slot : Nat
  parentRoot : Nat
  root : Nat
  forkOk : Bool
  relevancy : Relevancy
  sigOk : Bool
  importOk : Bool
  deriving Repr, DecidableEq

inductive SegError where
  | inconsistentFork
  | nonLinearParentRoots
  | nonLinearSlots
  | notFinalizedDescendant
  | beaconChainError
  | signatureError
  | importError
  deriving Repr, DecidableEq

inductive ChainSegmentResult where
  | successful (importedBlocks : Nat)
  | failed (importedBlocks : Nat) (error : SegError)
  deriving Repr, DecidableEq

/-- The first loop of `process_chain_segment`: structural linearity checks
against each block's child in the original segment, then relevancy
filtering.  `continue` cases drop the block, `break` truncates the
remainder, and hard failures abort (no block has been imported yet at
this stage, so the reported import count is zero). -/
def filterChainSegment : List SegBlock → Except SegError (List SegBlock)
  | [] => .ok []
  | b :: rest =>
    if !b.forkOk then .error .inconsistentFork
    else
      let linkError : Option SegError :=
        match rest with
        | [] => none
        | child :: _ =>
          if b.root ≠ child.parentRoot then some .nonLinearParentRoots
          else if child.slot ≤ b.slot then some .nonLinearSlots
          else none
      match linkError with
      | some e => .error e
      | none =>
        match b.relevancy with
        | .relevant => (filterChainSegment rest).map (b :: ·)
        | .alreadyKnown => filterChainSegment rest
        | .genesisBlock => filterChainSegment rest
        | .wouldRevertFinalizedSlot => filterChainSegment rest
        | .notFinalizedDescendant => .error .notFinalizedDescendant
        | .beaconChainError => .error .beaconChainError
        | .irrelevant => .ok []

/-- The per-block import loop over one signature-verified batch: blocks
are imported in order, stopping at the first `process_block` failure.
Returns the import count, the store, and the error if any. -/
def importBatch : List SegBlock → Nat → List Nat → Nat × List Nat × Option SegError
  | [], n, store => (n, store, none)
  | b :: bs, n, store =>
    if b.importOk then importBatch bs (n + 1) (store ++ [b.root])
    else (n, store, some .importError)

/-- The `while let` loop of `process_chain_segment`: split off the
maximal prefix sharing the first block's epoch (the code's `last_index`
is at least 1 because the first block's epoch is not greater than
itself, so the batch is the first block followed by the same-epoch
prefix of the rest), signature-verify the batch as a whole, then import
its blocks in order. -/
def processBatches : List SegBlock → Nat → List Nat → ChainSegmentResult × List Nat
  | [], n, store => (.successful n, store)
  | b :: rest0, n, store =>
    let startEpoch := epochOfSlot b.slot
    let batch := b :: rest0.takeWhile (fun x => epochOfSlot x.slot ≤ startEpoch)
    let rest := rest0.dropWhile (fun x => epochOfSlot x.slot ≤ startEpoch)
    if batch.all (·.sigOk) then
      match importBatch batch n store with
      | (n', store', none) => processBatches rest n' store'
      | (n', store', some e) => (.failed n' e, store')
    else
      (.failed n .signatureError, store)
  termination_by l => l.length
  decreasing_by
    simp_wf
    have hle : ∀ (p : SegBlock → Bool) (l : List SegBlock),
        (l.dropWhile p).length ≤ l.length := by
      intro p l
      induction l with
      | nil => simp [List.dropWhile]
      | cons a t ih =>
        by_cases h : p a = true
        · simp only [List.dropWhile, h, List.length_cons]
          omega
        · simp [List.dropWhile, h]
    exact Nat.lt_succ_of_le (hle _ _)

/-- `process_chain_segment(chain_segment)` against a store holding
`store` (the ordered roots of already-imported blocks). -/
def processChainSegment (segment : List SegBlock) (store : List Nat) :
    ChainSegmentResult × List Nat :=
  match filterChainSegment segment with
  | .error e => (.failed 0 e, store)
  | .ok filtered => processBatches filtered 0 store

/-! ## Re-org slot detection (`find_reorg_slot`)

`find_reorg_slot` (beacon_chain.rs:600-666) walks the ancestor-root
iterators of the old and new head states backward in lock-step, aligned
at the lower of the two head slots, and returns the first slot at which
the roots agree; when either iterator is exhausted first, it falls back
to the start slot of the old head state's finalized epoch.

Modelled from the spec: the ancestor-root iterator
(`rev_iter_block_roots`, in the repository's `types` crate, outside
`src/`) yields `(slot, root)` pairs with the slot decreasing by one per
step from the head slot, bounded by one historical-roots window; a chain
view is therefore a head slot, the lowest slot the iterator still yields
(`lowBound`), and the ancestor root at each slot.  The aligned iterators
both produce a slot exactly when it lies between `lowBound` and the
lower head slot, so the lock-step loop compares exactly the slots from
`min old.slot new.slot` down to `max old.lowBound new.lowBound`. -/

structure ChainView where
  slot : Nat
  lowBound : Nat
  root : Nat → Nat

/-- The lock-step comparison loop: compare `count` slots starting at
`slot` and descending, returning the first slot whose roots agree, or
the fallback when the compared slots are exhausted. -/
def reorgSearch (oldRoot newRoot : Nat → Nat) (fallback : Nat) :
    Nat → Nat → Nat
  | _, 0 => fallback
  | slot, count + 1 =>
    if oldRoot slot = newRoot slot then slot
    else reorgSearch oldRoot newRoot fallback (slot - 1) count

/-- `find_reorg_slot(new_state, new_block_root)` against the current
head (`old`): `oldFinalizedEpoch` is the old head state's finalized
checkpoint epoch, whose start slot is the fallback. -/
def findReorgSlot (old newView : ChainView) (oldFinalizedEpoch : Nat) : Nat :=
  let lowest := min old.slot newView.slot
  let lo := max old.lowBound newView.lowBound
  reorgSearch old.root newView.root (startSlotOfEpoch oldFinalizedEpoch)
    lowest (lowest + 1 - lo)

/-! ## Concrete instances

Closed inputs used by counterexamples and witnesses. -/

/-- A chain whose canonical head is block `1` at slot 0 with finalized
epoch 5. -/
def chainStateA : ChainState :=
  ⟨⟨1, 0, 5, 0⟩, 0, 0, 0, 0, 0, 0, 0, [], []⟩

/-- Head selection where the scoring structure elects a new head whose
state's finalized epoch (3) is behind the previous head's (5). -/
def fciEnvReverted : FciEnv :=
  { getHead := .ok 2
    getFinalized := .ok ⟨9, .valid 7⟩
    headLockOk := true
    shutdownSendOk := true
    loadNewHead := .ok ⟨8, 3, 0, some 1⟩
    headWriteLockOk := true
    persistOk := true
    finalizationOk := true
    wallSlotOk := true }

/-- Head selection where the scoring structure returns the current head
root while the finalized block carries an `Invalid` execution status. -/
def fciEnvUnchangedInvalid : FciEnv :=
  { getHead := .ok 1
    getFinalized := .ok ⟨9, .invalid 5⟩
    headLockOk := true
    shutdownSendOk := true
    loadNewHead := .ok ⟨8, 5, 0, some 1⟩
    headWriteLockOk := true
    persistOk := true
    finalizationOk := true
    wallSlotOk := true }

/-- Head selection where the candidate head (block 2) differs from the
current head and the finalized block carries an `Invalid` status. -/
def fciEnvInvalidFinalized : FciEnv :=
  { fciEnvUnchangedInvalid with getHead := .ok 2 }

/-- Head selection that succeeds and swaps the head from block 1 to
block 2 (same finalized epoch, same chain, same epoch). -/
def fciEnvSwap : FciEnv :=
  { getHead := .ok 2
    getFinalized := .ok ⟨9, .valid 7⟩
    headLockOk := true
    shutdownSendOk := true
    loadNewHead := .ok ⟨8, 5, 0, some 1⟩
    headWriteLockOk := true
    persistOk := true
    finalizationOk := true
    wallSlotOk := true }

/-- An invalid-payload processing environment whose justified block is
invalid. -/
def piEnvJustifiedInvalid : PiEnv :=
  { fci := fciEnvSwap, getJustified := .ok ⟨3, .invalid 4⟩ }

/-- An invalid-payload processing environment whose justified block is
valid. -/
def piEnvJustifiedValid : PiEnv :=
  { fci := fciEnvSwap, getJustified := .ok ⟨3, .valid 4⟩ }

/-- An engine-response environment whose invalidation pass succeeds. -/
def fcuEnvA : FcuEnv :=
  { pi := piEnvJustifiedValid, spawnOk := true }

/-! ## Claims -/

/-- C1: if the atomic database write in `import_block` fails after the
block has been registered with the in-memory fork-choice structure, the
fork-choice structure is reloaded from the last persisted on-disk
snapshot before the error is returned to the caller, and the block is
not reported as imported: the head tracker is not touched and no
block-imported event is emitted. -/
theorem import_block_db_failure_rollback
    (env : ImportEnv) (blockRoot parentRoot slot : Nat) (s : ImportState)
    (e : Unit) (persisted : Nat)
    (hdb : env.dbWrite = .error e)
    (hload : env.loadForkChoice = .ok (some persisted)) :
    importBlockTail env blockRoot parentRoot slot s
      = ({ s with forkChoice := persisted }, .error .dbWriteError) := by
  simp [importBlockTail, hdb, hload]

theorem import_block_db_failure_rollback_witness :
    importBlockTail ⟨.error (), .ok (some 7), true⟩ 10 11 12 ⟨3, [], []⟩
      = (⟨7, [], []⟩, .error .dbWriteError) :=
  import_block_db_failure_rollback ⟨.error (), .ok (some 7), true⟩ 10 11 12
    ⟨3, [], []⟩ () 7 rfl rfl

/-- C9: in block production, a candidate block whose SSZ-encoded length
exceeds the configured maximum network size is rejected with
`BlockTooLarge` carrying the offending size, and `per_block_processing`
is not invoked on it. -/
theorem produce_block_too_large_rejected_before_processing
    (env : ProduceEnv) (blockSize : Nat)
    (h : blockSize > env.maxNetworkSize) :
    produceBlockSizeGuard env blockSize
      = (.error (.blockTooLarge blockSize), false) := by
  simp [produceBlockSizeGuard, h]

theorem produce_block_too_large_rejected_before_processing_witness :
    produceBlockSizeGuard ⟨10, true⟩ 11
      = (.error (.blockTooLarge 11), false) :=
  produce_block_too_large_rejected_before_processing ⟨10, true⟩ 11 (by decide)

/-- C10: for both skip-slot modes, `block_root_at_slot` returns
`Ok(None)` for every request slot strictly greater than the current
wall-clock slot, and returns `Ok(Some(genesis_block_root))` when the
request slot equals the genesis slot (the wall-clock slot is at least
the genesis slot whenever the slot clock reads successfully). -/
theorem block_root_at_slot_future_and_genesis
    (env : RootLookupEnv) (skips : WhenSlotSkipped) :
    (∀ requestSlot, requestSlot > env.currentSlot →
      blockRootAtSlot env requestSlot skips = .ok none)
    ∧ (env.genesisSlot ≤ env.currentSlot →
      blockRootAtSlot env env.genesisSlot skips = .ok (some env.genesisBlockRoot)) := by
  constructor
  · intro requestSlot h
    cases skips <;>
      simp [blockRootAtSlot, blockRootAtSlotSkipsNone, blockRootAtSlotSkipsPrev, h]
  · intro hg
    have h : ¬ env.genesisSlot > env.currentSlot := by omega
    cases skips <;>
      simp [blockRootAtSlot, blockRootAtSlotSkipsNone, blockRootAtSlotSkipsPrev, h]

theorem block_root_at_slot_future_and_genesis_witness :
    blockRootAtSlot ⟨100, 0, 42, .ok (some 1), .ok (some 2)⟩ 101 .none = .ok none
    ∧ blockRootAtSlot ⟨100, 0, 42, .ok (some 1), .ok (some 2)⟩ 0 .prev
      = .ok (some 42) :=
  ⟨(block_root_at_slot_future_and_genesis ⟨100, 0, 42, .ok (some 1), .ok (some 2)⟩ .none).1
      101 (by decide),
    (block_root_at_slot_future_and_genesis ⟨100, 0, 42, .ok (some 1), .ok (some 2)⟩ .prev).2
      (by decide)⟩

/-! ### Head-selection helper lemmas -/

theorem fciRunSwap_spec (env : FciEnv) (b : Nat) (nh : NewHeadData)
    (s s' : ChainState) (r : Except FcError Unit)
    (h : fciRunSwap env b nh s = (s', r)) :
    s'.invalidationCalls = s.invalidationCalls
    ∧ s'.validatedPayloads = s.validatedPayloads
    ∧ s'.fciRuns = s.fciRuns
    ∧ s'.shutdownSends = s.shutdownSends
    ∧ (r = .ok () → s'.head = ⟨b, nh.slot, nh.finalizedEpoch, nh.finalizedRoot⟩) := by
  unfold fciRunSwap at h
  dsimp only at h
  repeat' split at h
  all_goals (
    injection h with h1 h2
    subst h1
    subst h2
    refine ⟨rfl, rfl, rfl, rfl, ?_⟩
    intro hok
    first
      | rfl
      | exact absurd hok (by simp))

theorem fciRun_effects (env : FciEnv) (s s' : ChainState) (r : Except FcError Unit)
    (h : fciRun env s = (s', r)) :
    s'.invalidationCalls = s.invalidationCalls
    ∧ s'.validatedPayloads = s.validatedPayloads
    ∧ s'.fciRuns = s.fciRuns + 1
    ∧ s.shutdownSends ≤ s'.shutdownSends := by
  unfold fciRun at h
  dsimp only at h
  repeat' split at h
  all_goals first
    | (injection h with h1 h2; subst h1; exact ⟨rfl, rfl, rfl, by simp⟩)
    | (obtain ⟨h1, h2, h3, h4, -⟩ := fciRunSwap_spec _ _ _ _ _ _ h
       exact ⟨h1, h2, h3, by simp [h4]⟩)

theorem fciRun_finalized_mono (env : FciEnv) (s s' : ChainState)
    (h : fciRun env s = (s', .ok ())) :
    s.head.finalizedEpoch ≤ s'.head.finalizedEpoch := by
  unfold fciRun at h
  dsimp only at h
  repeat' split at h
  all_goals first
    | (injection h with h1 h2; first
        | exact Except.noConfusion h2
        | (subst h1; exact Nat.le_refl _))
    | (obtain ⟨-, -, -, -, hhead⟩ := fciRunSwap_spec _ _ _ _ _ _ h
       rw [hhead rfl]
       simp_all)

theorem fciRun_ok_head_root (env : FciEnv) (s s' : ChainState)
    (h : fciRun env s = (s', .ok ())) :
    env.getHead = .ok s'.head.blockRoot := by
  unfold fciRun at h
  dsimp only at h
  repeat' split at h
  all_goals first
    | (injection h with h1 h2; first
        | exact Except.noConfusion h2
        | (subst h1; simp_all))
    | (obtain ⟨-, -, -, -, hhead⟩ := fciRunSwap_spec _ _ _ _ _ _ h
       rw [hhead rfl]
       simp_all)

/-- C2: a head-selection run whose candidate head carries a finalized
checkpoint epoch strictly below the previous head's returns the fatal
`RevertedFinalizedEpoch` error and leaves the canonical head (and all
other chain state except the run counter) unchanged; consequently a
successful run never decreases the finalized epoch, and across any
sequence of successful head selections the finalized checkpoint epoch is
monotonically non-decreasing. -/
theorem head_selection_rejects_reverted_finalized_epoch :
    (∀ (env : FciEnv) (s : ChainState) (r : Nat) (fb : ProtoBlock) (nh : NewHeadData),
      env.getHead = .ok r → env.getFinalized = .ok fb → env.headLockOk = true →
      r ≠ s.head.blockRoot → fb.executionStatus.isInvalid = false →
      env.loadNewHead = .ok nh → nh.finalizedEpoch < s.head.finalizedEpoch →
      fciRun env s = ({ s with fciRuns := s.fciRuns + 1 },
        .error (.revertedFinalizedEpoch s.head.finalizedEpoch nh.finalizedEpoch)))
    ∧ (∀ (env : FciEnv) (s s' : ChainState), fciRun env s = (s', .ok ()) →
        s.head.finalizedEpoch ≤ s'.head.finalizedEpoch)
    ∧ (∀ (envs : List FciEnv) (s : ChainState), FciAllOk envs s →
        s.head.finalizedEpoch ≤ (fciRunSeq envs s).head.finalizedEpoch) := by
  refine ⟨?_, ?_, ?_⟩
  · intro env s r fb nh hgh hgf hl hsame hnotinv hln hrev
    unfold fciRun
    rcases hst : fb.executionStatus with bh | bh | bh | _
    on_goal 2 => rw [hst] at hnotinv; simp [ExecutionStatus.isInvalid] at hnotinv
    all_goals simp [hgh, hgf, hl, hsame, hst, hln, hrev]
  · intro env s s' h
    exact fciRun_finalized_mono env s s' h
  · intro envs
    induction envs with
    | nil => intro s _; exact Nat.le_refl _
    | cons env rest ih =>
      intro s hok
      rcases heq : fciRun env s with ⟨s1, r1⟩
      have h1 : (fciRun env s).2 = .ok () := hok.1
      rw [heq] at h1
      subst h1
      have hmono := fciRun_finalized_mono env s s1 heq
      have hrest := ih (fciRun env s).1 hok.2
      rw [heq] at hrest
      calc s.head.finalizedEpoch ≤ s1.head.finalizedEpoch := hmono
        _ ≤ (fciRunSeq rest s1).head.finalizedEpoch := hrest
        _ = (fciRunSeq (env :: rest) s).head.finalizedEpoch := by
              simp [fciRunSeq, heq]

theorem head_selection_rejects_reverted_finalized_epoch_witness :
    fciRun fciEnvReverted chainStateA
      = ({ chainStateA with fciRuns := 1 },
         .error (.revertedFinalizedEpoch 5 3))
    ∧ chainStateA.head.finalizedEpoch
        ≤ (fciRunSeq [fciEnvSwap] chainStateA).head.finalizedEpoch :=
  ⟨head_selection_rejects_reverted_finalized_epoch.1 fciEnvReverted chainStateA 2
      ⟨9, .valid 7⟩ ⟨8, 3, 0, some 1⟩ rfl rfl rfl (by decide) rfl rfl (by decide),
    head_selection_rejects_reverted_finalized_epoch.2.2 [fciEnvSwap] chainStateA
      ⟨by decide, trivial⟩⟩

/-- C3, counterexample: when the scoring structure returns the current
head root, `fork_choice_internal` returns `Ok` *before* the
invalid-finalized-payload check, so an `Invalid` finalized block is
neither rejected nor answered with a shutdown request on that
invocation — refuting the claim's "for every head-selection
invocation". -/
theorem head_selection_invalid_finalized_skipped_when_head_unchanged :
    fciEnvUnchangedInvalid.getFinalized = .ok ⟨9, .invalid 5⟩
    ∧ fciRun fciEnvUnchangedInvalid chainStateA
        = ({ chainStateA with fciRuns := 1 }, .ok ())
    ∧ (fciRun fciEnvUnchangedInvalid chainStateA).1.shutdownSends = 0 :=
  ⟨rfl, by decide, by decide⟩

/-- C3, amended: whenever head selection runs with a candidate head
different from the current canonical head (and the fork-choice reads and
head-lock acquisition succeed), a fork-choice finalized block carrying an
`Invalid` execution status causes a process-shutdown request and — when
the shutdown channel accepts it — the fatal `InvalidFinalizedPayload`
error, with the canonical head left unchanged. -/
theorem head_selection_rejects_invalid_finalized_payload
    (env : FciEnv) (s : ChainState) (r : Nat) (fb : ProtoBlock) (bh : Nat)
    (hgh : env.getHead = .ok r) (hgf : env.getFinalized = .ok fb)
    (hl : env.headLockOk = true) (hsame : r ≠ s.head.blockRoot)
    (hst : fb.executionStatus = .invalid bh) (hsend : env.shutdownSendOk = true) :
    fciRun env s
      = ({ s with fciRuns := s.fciRuns + 1, shutdownSends := s.shutdownSends + 1 },
         .error (.invalidFinalizedPayload fb.root bh)) := by
  unfold fciRun
  simp [hgh, hgf, hl, hsame, hst, hsend]

theorem head_selection_rejects_invalid_finalized_payload_witness :
    fciRun fciEnvInvalidFinalized chainStateA
      = ({ chainStateA with fciRuns := 1, shutdownSends := 1 },
         .error (.invalidFinalizedPayload 9 5)) :=
  head_selection_rejects_invalid_finalized_payload fciEnvInvalidFinalized
    chainStateA 2 ⟨9, .invalid 5⟩ 5 rfl rfl rfl (by decide) rfl rfl

/-- C8: when the root returned by the fork-choice scoring structure
equals the current canonical head's block root, `fork_choice_internal`
returns `Ok` immediately and performs no effect (no head swap, no
early-attester-cache clear, no persistence, no engine notification —
only the run counter advances); hence a second run straight after a
successful one, with the scoring structure returning the same root, is
such a no-op. -/
theorem head_selection_noop_when_head_unchanged :
    (∀ (env : FciEnv) (s : ChainState) (fb : ProtoBlock),
      env.getHead = .ok s.head.blockRoot → env.getFinalized = .ok fb →
      env.headLockOk = true →
      fciRun env s = ({ s with fciRuns := s.fciRuns + 1 }, .ok ()))
    ∧ (∀ (env env2 : FciEnv) (s s' : ChainState) (fb : ProtoBlock),
        fciRun env s = (s', .ok ()) → env2.getHead = env.getHead →
        env2.getFinalized = .ok fb → env2.headLockOk = true →
        fciRun env2 s' = ({ s' with fciRuns := s'.fciRuns + 1 }, .ok ())) := by
  have key : ∀ (env : FciEnv) (s : ChainState) (fb : ProtoBlock),
      env.getHead = .ok s.head.blockRoot → env.getFinalized = .ok fb →
      env.headLockOk = true →
      fciRun env s = ({ s with fciRuns := s.fciRuns + 1 }, .ok ()) := by
    intro env s fb hgh hgf hl
    unfold fciRun
    simp [hgh, hgf, hl]
  refine ⟨key, ?_⟩
  intro env env2 s s' fb h hgh2 hgf2 hl2
  refine key env2 s' fb ?_ hgf2 hl2
  rw [hgh2]
  exact fciRun_ok_head_root env s s' h

theorem head_selection_noop_when_head_unchanged_witness :
    fciRun fciEnvUnchangedInvalid chainStateA
      = ({ chainStateA with fciRuns := 1 }, .ok ())
    ∧ fciRun fciEnvSwap ⟨⟨2, 8, 5, 0⟩, 1, 1, 0, 0, 1, 1, 0, [], []⟩
      = (⟨⟨2, 8, 5, 0⟩, 2, 1, 0, 0, 1, 1, 0, [], []⟩, .ok ()) :=
  ⟨head_selection_noop_when_head_unchanged.1 fciEnvUnchangedInvalid chainStateA
      ⟨9, .invalid 5⟩ rfl rfl rfl,
    head_selection_noop_when_head_unchanged.2 fciEnvSwap fciEnvSwap chainStateA
      ⟨⟨2, 8, 5, 0⟩, 1, 1, 0, 0, 1, 1, 0, [], []⟩ ⟨9, .valid 7⟩
      (by decide) rfl rfl rfl⟩

/-! ### Invalid-payload processing -/

theorem processInvalidPayload_props :
    ∀ (env : PiEnv) (op : InvalidationOperation) (s : ChainState),
      ((processInvalidExecutionPayload env op s).1.invalidationCalls
        = s.invalidationCalls ++ [op])
      ∧ ((processInvalidExecutionPayload env op s).1.fciRuns = s.fciRuns + 1)
      ∧ (∀ jb, env.getJustified = .ok jb →
          (jb.executionStatus.isInvalid = true →
            (processInvalidExecutionPayload env op s).2
              = .error (.justifiedPayloadInvalid jb.root jb.executionStatus.blockHash)
            ∧ s.shutdownSends < (processInvalidExecutionPayload env op s).1.shutdownSends)
          ∧ (jb.executionStatus.isInvalid = false →
            (processInvalidExecutionPayload env op s).2 = .ok ())) := by
  intro env op s
  obtain ⟨hic, hvp, hruns, hsd⟩ :=
    fciRun_effects env.fci { s with invalidationCalls := s.invalidationCalls ++ [op] }
      (fciRun env.fci { s with invalidationCalls := s.invalidationCalls ++ [op] }).1
      (fciRun env.fci { s with invalidationCalls := s.invalidationCalls ++ [op] }).2 rfl
  unfold processInvalidExecutionPayload
  dsimp only
  rcases hj : env.getJustified with e | jb
  · refine ⟨by simp [hic], by simp [hruns], ?_⟩
    intro jb hjb
    exact Except.noConfusion hjb
  · by_cases hinv : jb.executionStatus.isInvalid
    · simp only [hinv, if_true]
      refine ⟨by simp [hic], by simp [hruns], ?_⟩
      intro jb2 hjb2
      injection hjb2 with hjb3
      subst hjb3
      constructor
      · intro _
        refine ⟨rfl, ?_⟩
        have : s.shutdownSends
            ≤ (fciRun env.fci
                { s with invalidationCalls := s.invalidationCalls ++ [op] }).1.shutdownSends := hsd
        omega
      · intro hfalse
        rw [hinv] at hfalse
        exact Bool.noConfusion hfalse
    · simp only [Bool.not_eq_true] at hinv
      simp only [hinv, Bool.false_eq_true, if_false]
      refine ⟨by simp [hic], by simp [hruns], ?_⟩
      intro jb2 hjb2
      injection hjb2 with hjb3
      subst hjb3
      constructor
      · intro ht
        simp [hinv] at ht
      · intro _
        first
          | rfl
          | trivial

/-- C4: `process_invalid_execution_payload` always applies the
invalidation operation to fork choice and re-runs head selection; then,
if the justified block read from fork choice carries an invalid
execution status, it pushes a process-shutdown request and returns
`JustifiedPayloadInvalid`, and otherwise returns `Ok`. -/
theorem process_invalid_payload_applies_invalidation_and_checks_justified :
    ∀ (env : PiEnv) (op : InvalidationOperation) (s : ChainState),
      ((processInvalidExecutionPayload env op s).1.invalidationCalls
        = s.invalidationCalls ++ [op])
      ∧ ((processInvalidExecutionPayload env op s).1.fciRuns = s.fciRuns + 1)
      ∧ (∀ jb, env.getJustified = .ok jb →
          (jb.executionStatus.isInvalid = true →
            (processInvalidExecutionPayload env op s).2
              = .error (.justifiedPayloadInvalid jb.root jb.executionStatus.blockHash)
            ∧ s.shutdownSends < (processInvalidExecutionPayload env op s).1.shutdownSends)
          ∧ (jb.executionStatus.isInvalid = false →
            (processInvalidExecutionPayload env op s).2 = .ok ())) :=
  processInvalidPayload_props

theorem process_invalid_payload_applies_invalidation_and_checks_justified_witness :
    (processInvalidExecutionPayload piEnvJustifiedInvalid (.invalidateOne 5)
        chainStateA).1.invalidationCalls = [.invalidateOne 5]
    ∧ (processInvalidExecutionPayload piEnvJustifiedInvalid (.invalidateOne 5)
        chainStateA).2 = .error (.justifiedPayloadInvalid 3 (some 4))
    ∧ (processInvalidExecutionPayload piEnvJustifiedValid (.invalidateOne 5)
        chainStateA).2 = .ok () :=
  ⟨(process_invalid_payload_applies_invalidation_and_checks_justified
      piEnvJustifiedInvalid (.invalidateOne 5) chainStateA).1,
    (((process_invalid_payload_applies_invalidation_and_checks_justified
      piEnvJustifiedInvalid (.invalidateOne 5) chainStateA).2.2
        ⟨3, .invalid 4⟩ rfl).1 rfl).1,
    ((process_invalid_payload_applies_invalidation_and_checks_justified
      piEnvJustifiedValid (.invalidateOne 5) chainStateA).2.2
        ⟨3, .valid 4⟩ rfl).2 rfl⟩

/-- C5: the `notify_forkchoice_updated` response handling — `Valid`
applies `on_valid_execution_payload(head_block_root)` to fork choice and
returns `Ok`; `Syncing` and `Accepted` change no state and return `Ok`;
`Invalid` triggers an invalidation pass with
`InvalidateMany { head_block_root, always_invalidate_head = true,
latest_valid_ancestor = latest_valid_hash }`; `InvalidBlockHash` and
`InvalidTerminalBlock` trigger an invalidation pass with
`InvalidateOne { head_block_root }`; in the three invalid cases (with the
spawned pass completing without error) the function returns
`ExecutionForkChoiceUpdateInvalid`. -/
theorem forkchoice_updated_response_handling :
    ∀ (env : FcuEnv) (root : Nat) (s : ChainState),
      (handleForkchoiceUpdatedResponse env root .valid s
        = ({ s with validatedPayloads := s.validatedPayloads ++ [root] }, .ok ()))
      ∧ (handleForkchoiceUpdatedResponse env root .syncing s = (s, .ok ()))
      ∧ (handleForkchoiceUpdatedResponse env root .accepted s = (s, .ok ()))
      ∧ (∀ lvh, env.spawnOk = true →
          (processInvalidExecutionPayload env.pi (.invalidateMany root true lvh) s).2
            = .ok () →
          handleForkchoiceUpdatedResponse env root (.invalid lvh) s
            = ((processInvalidExecutionPayload env.pi
                  (.invalidateMany root true lvh) s).1,
               .error (.executionForkChoiceUpdateInvalid (.invalid lvh)))
          ∧ (processInvalidExecutionPayload env.pi
                (.invalidateMany root true lvh) s).1.invalidationCalls
            = s.invalidationCalls ++ [.invalidateMany root true lvh])
      ∧ (env.spawnOk = true →
          (processInvalidExecutionPayload env.pi (.invalidateOne root) s).2 = .ok () →
          handleForkchoiceUpdatedResponse env root .invalidBlockHash s
            = ((processInvalidExecutionPayload env.pi (.invalidateOne root) s).1,
               .error (.executionForkChoiceUpdateInvalid .invalidBlockHash))
          ∧ handleForkchoiceUpdatedResponse env root .invalidTerminalBlock s
            = ((processInvalidExecutionPayload env.pi (.invalidateOne root) s).1,
               .error (.executionForkChoiceUpdateInvalid .invalidTerminalBlock))
          ∧ (processInvalidExecutionPayload env.pi
                (.invalidateOne root) s).1.invalidationCalls
            = s.invalidationCalls ++ [.invalidateOne root]) := by
  intro env root s
  refine ⟨rfl, rfl, rfl, ?_, ?_⟩
  · intro lvh hsp hok
    rcases hpe : processInvalidExecutionPayload env.pi (.invalidateMany root true lvh) s
      with ⟨s1, r1⟩
    rw [hpe] at hok
    simp only at hok
    subst hok
    constructor
    · unfold handleForkchoiceUpdatedResponse
      simp [hsp, hpe]
    · rw [← hpe]
      exact (processInvalidPayload_props env.pi (.invalidateMany root true lvh) s).1
  · intro hsp hok
    rcases hpe : processInvalidExecutionPayload env.pi (.invalidateOne root) s
      with ⟨s1, r1⟩
    rw [hpe] at hok
    simp only at hok
    subst hok
    refine ⟨?_, ?_, ?_⟩
    · unfold handleForkchoiceUpdatedResponse
      simp [hsp, hpe]
    · unfold handleForkchoiceUpdatedResponse
      simp [hsp, hpe]
    · rw [← hpe]
      exact (processInvalidPayload_props env.pi (.invalidateOne root) s).1

theorem forkchoice_updated_response_handling_witness :
    handleForkchoiceUpdatedResponse fcuEnvA 5 .valid chainStateA
      = ({ chainStateA with validatedPayloads := [5] }, .ok ())
    ∧ handleForkchoiceUpdatedResponse fcuEnvA 5 .syncing chainStateA
      = (chainStateA, .ok ())
    ∧ handleForkchoiceUpdatedResponse fcuEnvA 5 (.invalid (some 3)) chainStateA
      = ((processInvalidExecutionPayload piEnvJustifiedValid
            (.invalidateMany 5 true (some 3)) chainStateA).1,
         .error (.executionForkChoiceUpdateInvalid (.invalid (some 3))))
    ∧ handleForkchoiceUpdatedResponse fcuEnvA 5 .invalidBlockHash chainStateA
      = ((processInvalidExecutionPayload piEnvJustifiedValid
            (.invalidateOne 5) chainStateA).1,
         .error (.executionForkChoiceUpdateInvalid .invalidBlockHash)) :=
  ⟨(forkchoice_updated_response_handling fcuEnvA 5 chainStateA).1,
    (forkchoice_updated_response_handling fcuEnvA 5 chainStateA).2.1,
    ((forkchoice_updated_response_handling fcuEnvA 5 chainStateA).2.2.2.1
      (some 3) rfl (by decide)).1,
    ((forkchoice_updated_response_handling fcuEnvA 5 chainStateA).2.2.2.2
      rfl (by decide)).1⟩

/-! ### Re-org slot detection -/

theorem reorgSearch_finds (oldRoot newRoot : Nat → Nat) (fb : Nat) :
    ∀ (k slot count : Nat), k < count →
      oldRoot (slot - k) = newRoot (slot - k) →
      (∀ j, j < k → oldRoot (slot - j) ≠ newRoot (slot - j)) →
      reorgSearch oldRoot newRoot fb slot count = slot - k := by
  intro k
  induction k with
  | zero =>
    intro slot count hk hfound _
    rcases count with _ | c
    · omega
    · unfold reorgSearch
      rw [Nat.sub_zero] at hfound ⊢
      simp [hfound]
  | succ k ih =>
    intro slot count hk hfound habove
    rcases count with _ | c
    · omega
    · unfold reorgSearch
      have h0 : oldRoot slot ≠ newRoot slot := by
        have := habove 0 (Nat.succ_pos k)
        simpa using this
      simp only [h0, if_false]
      have heq1 : slot - 1 - k = slot - (k + 1) := by omega
      have := ih (slot - 1) c (by omega)
        (by rw [heq1]; exact hfound)
        (by
          intro j hj
          have heq2 : slot - 1 - j = slot - (j + 1) := by omega
          rw [heq2]
          exact habove (j + 1) (by omega))
      rw [this, heq1]

theorem reorgSearch_all_fail (oldRoot newRoot : Nat → Nat) (fb : Nat) :
    ∀ (count slot : Nat),
      (∀ j, j < count → oldRoot (slot - j) ≠ newRoot (slot - j)) →
      reorgSearch oldRoot newRoot fb slot count = fb := by
  intro count
  induction count with
  | zero => intro slot _; rfl
  | succ c ih =>
    intro slot hall
    unfold reorgSearch
    have h0 : oldRoot slot ≠ newRoot slot := by
      have := hall 0 (Nat.succ_pos c)
      simpa using this
    simp only [h0, if_false]
    refine ih (slot - 1) ?_
    intro j hj
    have heq : slot - 1 - j = slot - (j + 1) := by omega
    rw [heq]
    exact hall (j + 1) (by omega)

/-- C7, counterexample: when the lock-step walk exhausts both windows
without finding a common root, `find_reorg_slot` returns the old
finalized epoch's start slot even when that is *higher* than the most
recent common ancestor slot — here the chains (head slot 70, windows
down to slot 68) agree exactly at slots ≤ 10, yet with finalized epoch 1
the function returns slot 32, overstating the divergence slot (32 > 10)
and hence under-stating the re-org depth, refuting "the returned slot is
never higher than the true divergence slot". -/
theorem find_reorg_slot_fallback_overshoots :
    (⟨70, 68, fun s => if s ≤ 10 then s else s + 1000⟩ : ChainView).root 10
      = (⟨70, 68, fun s => if s ≤ 10 then s else s + 2000⟩ : ChainView).root 10
    ∧ (∀ t, t ≤ 70 → 10 < t →
        (⟨70, 68, fun s => if s ≤ 10 then s else s + 1000⟩ : ChainView).root t
          ≠ (⟨70, 68, fun s => if s ≤ 10 then s else s + 2000⟩ : ChainView).root t)
    ∧ findReorgSlot
        ⟨70, 68, fun s => if s ≤ 10 then s else s + 1000⟩
        ⟨70, 68, fun s => if s ≤ 10 then s else s + 2000⟩ 1
      = 32
    ∧ ¬(32 ≤ 10) := by
  refine ⟨rfl, ?_, by decide, by decide⟩
  intro t h1 h2
  have hn : ¬(t ≤ 10) := by omega
  simp [hn]

/-- C7, amended: `find_reorg_slot` returns the slot of the most recent
common block root of the two chains at or below the lower of the two
head slots whenever that slot is within both ancestor-iterator windows,
and returns the start slot of the old head state's finalized epoch when
the windows hold no common root; the returned slot never exceeds the
most recent common-ancestor slot *provided* that ancestor is not below
the old finalized epoch's start slot (re-orgs through the finalized slot
can be over-stated, as the source comments note). -/
theorem find_reorg_slot_spec :
    ∀ (o n : ChainView) (fe : Nat),
      (∀ g, g ≤ min o.slot n.slot → o.root g = n.root g →
        (∀ t, t ≤ min o.slot n.slot → g < t → o.root t ≠ n.root t) →
        (max o.lowBound n.lowBound ≤ g → findReorgSlot o n fe = g)
        ∧ (startSlotOfEpoch fe ≤ g → findReorgSlot o n fe ≤ g))
      ∧ ((∀ t, t ≤ min o.slot n.slot → max o.lowBound n.lowBound ≤ t →
            o.root t ≠ n.root t) →
          findReorgSlot o n fe = startSlotOfEpoch fe) := by
  intro o n fe
  have hfallback : (∀ t, t ≤ min o.slot n.slot → max o.lowBound n.lowBound ≤ t →
      o.root t ≠ n.root t) → findReorgSlot o n fe = startSlotOfEpoch fe := by
    intro hall
    unfold findReorgSlot
    refine reorgSearch_all_fail o.root n.root (startSlotOfEpoch fe) _ _ ?_
    intro j hj
    refine hall (min o.slot n.slot - j) (by omega) (by omega)
  have hexact : ∀ g, g ≤ min o.slot n.slot → o.root g = n.root g →
      (∀ t, t ≤ min o.slot n.slot → g < t → o.root t ≠ n.root t) →
      max o.lowBound n.lowBound ≤ g → findReorgSlot o n fe = g := by
    intro g hg hcommon habove hlo
    unfold findReorgSlot
    have hk : min o.slot n.slot - (min o.slot n.slot - g) = g := by omega
    have := reorgSearch_finds o.root n.root (startSlotOfEpoch fe)
      (min o.slot n.slot - g) (min o.slot n.slot)
      (min o.slot n.slot + 1 - max o.lowBound n.lowBound)
      (by omega)
      (by rw [hk]; exact hcommon)
      (by
        intro j hj
        exact habove (min o.slot n.slot - j) (by omega) (by omega))
    rw [this, hk]
  refine ⟨?_, hfallback⟩
  intro g hg hcommon habove
  refine ⟨hexact g hg hcommon habove, ?_⟩
  intro hfe
  by_cases hlo : max o.lowBound n.lowBound ≤ g
  · rw [hexact g hg hcommon habove hlo]
  · rw [hfallback ?_]
    · exact hfe
    · intro t ht1 ht2
      exact habove t ht1 (by omega)

theorem find_reorg_slot_spec_witness :
    findReorgSlot ⟨10, 0, fun s => s⟩ ⟨10, 0, fun s => s⟩ 0 = 10
    ∧ findReorgSlot
        ⟨70, 68, fun s => if s ≤ 10 then s else s + 1000⟩
        ⟨70, 68, fun s => if s ≤ 10 then s else s + 2000⟩ 0
      = 0 :=
  ⟨(find_reorg_slot_spec ⟨10, 0, fun s => s⟩ ⟨10, 0, fun s => s⟩ 0).1 10
      (by decide) rfl (by decide) |>.1 (by decide),
    (find_reorg_slot_spec
        ⟨70, 68, fun s => if s ≤ 10 then s else s + 1000⟩
        ⟨70, 68, fun s => if s ≤ 10 then s else s + 2000⟩ 0).2
      (by decide)⟩

/-! ### Batch import -/

theorem takeWhile_append_all {α : Type} (p : α → Bool) (l₁ l₂ : List α)
    (h : ∀ a ∈ l₁, p a = true) :
    (l₁ ++ l₂).takeWhile p = l₁ ++ l₂.takeWhile p := by
  induction l₁ with
  | nil => simp
  | cons a t ih =>
    have ha : p a = true := h a (List.mem_cons_self a t)
    simp only [List.cons_append, List.takeWhile_cons, ha, if_true]
    rw [ih (fun x hx => h x (List.mem_cons_of_mem a hx))]

theorem dropWhile_append_all {α : Type} (p : α → Bool) (l₁ l₂ : List α)
    (h : ∀ a ∈ l₁, p a = true) :
    (l₁ ++ l₂).dropWhile p = l₂.dropWhile p := by
  induction l₁ with
  | nil => simp
  | cons a t ih =>
    have ha : p a = true := h a (List.mem_cons_self a t)
    simp only [List.cons_append, List.dropWhile_cons, ha, if_true]
    exact ih (fun x hx => h x (List.mem_cons_of_mem a hx))

theorem takeWhile_append_stuck {α : Type} (p : α → Bool) (l₁ l₂ : List α)
    (h : l₁.dropWhile p ≠ []) :
    (l₁ ++ l₂).takeWhile p = l₁.takeWhile p := by
  induction l₁ with
  | nil => simp at h
  | cons a t ih =>
    by_cases ha : p a = true
    · simp only [List.cons_append, List.takeWhile_cons, ha, if_true]
      rw [ih]
      intro hc
      rw [List.dropWhile_cons, if_pos ha] at h
      exact h hc
    · have ha' : p a = false := by
        cases hpa : p a <;> simp_all
      simp [List.takeWhile_cons, ha']

theorem dropWhile_append_stuck {α : Type} (p : α → Bool) (l₁ l₂ : List α)
    (h : l₁.dropWhile p ≠ []) :
    (l₁ ++ l₂).dropWhile p = l₁.dropWhile p ++ l₂ := by
  induction l₁ with
  | nil => simp at h
  | cons a t ih =>
    by_cases ha : p a = true
    · simp only [List.cons_append, List.dropWhile_cons, ha, if_true]
      rw [ih]
      intro hc
      rw [List.dropWhile_cons, if_pos ha] at h
      exact h hc
    · have ha' : p a = false := by
        cases hpa : p a <;> simp_all
      simp [List.dropWhile_cons, ha']

theorem importBatch_all_ok (l : List SegBlock) :
    ∀ (n : Nat) (store : List Nat), (∀ b ∈ l, b.importOk = true) →
      importBatch l n store = (n + l.length, store ++ l.map (·.root), none) := by
  induction l with
  | nil => intro n store _; simp [importBatch]
  | cons b t ih =>
    intro n store h
    have hb : b.importOk = true := h b (List.mem_cons_self b t)
    unfold importBatch
    simp only [hb, if_true]
    rw [ih (n + 1) (store ++ [b.root]) (fun x hx => h x (List.mem_cons_of_mem b hx))]
    simp only [List.length_cons, List.map_cons, Prod.mk.injEq]
    refine ⟨by omega, by simp, trivial⟩

theorem importBatch_bad_last (l : List SegBlock) (bad : SegBlock) :
    ∀ (n : Nat) (store : List Nat), (∀ b ∈ l, b.importOk = true) →
      bad.importOk = false →
      importBatch (l ++ [bad]) n store
        = (n + l.length, store ++ l.map (·.root), some .importError) := by
  induction l with
  | nil =>
    intro n store _ hbad
    simp [importBatch, hbad]
  | cons b t ih =>
    intro n store h hbad
    have hb : b.importOk = true := h b (List.mem_cons_self b t)
    simp only [List.cons_append]
    unfold importBatch
    simp only [hb, if_true]
    rw [ih (n + 1) (store ++ [b.root]) (fun x hx => h x (List.mem_cons_of_mem b hx)) hbad]
    simp only [List.length_cons, List.map_cons, Prod.mk.injEq]
    refine ⟨by omega, by simp, trivial⟩

theorem filterChainSegment_all_relevant :
    ∀ l : List SegBlock, (∀ b ∈ l, b.forkOk = true ∧ b.relevancy = .relevant) →
      l.Chain' (fun a c => a.root = c.parentRoot ∧ a.slot < c.slot) →
      filterChainSegment l = .ok l := by
  intro l
  induction l with
  | nil => intro _ _; rfl
  | cons b rest ih =>
    intro hgood hchain
    obtain ⟨hfork, hrel⟩ := hgood b (List.mem_cons_self b rest)
    unfold filterChainSegment
    simp only [hfork, Bool.not_true, Bool.false_eq_true, if_false]
    cases rest with
    | nil =>
      simp [hrel, filterChainSegment, Except.map]
    | cons c rest2 =>
      obtain ⟨⟨hroot, hslot⟩, hchain2⟩ := List.chain'_cons.mp hchain
      have hne : ¬(b.root ≠ c.parentRoot) := fun hc => hc hroot
      have hns : ¬(c.slot ≤ b.slot) := by omega
      simp only [hne, hns, if_false, hrel]
      rw [ih (fun x hx => hgood x (List.mem_cons_of_mem b hx)) hchain2]
      rfl

theorem processBatches_good_then_bad :
    ∀ (N : Nat) (valids : List SegBlock) (bad : SegBlock) (n : Nat) (store : List Nat),
      valids.length = N →
      (∀ v ∈ valids, v.sigOk = true ∧ v.importOk = true) →
      bad.sigOk = true → bad.importOk = false →
      processBatches (valids ++ [bad]) n store
        = (.failed (n + valids.length) .importError, store ++ valids.map (·.root)) := by
  intro N
  induction N using Nat.strong_induction_on with
  | _ N ih =>
    intro valids bad n store hlen hgood hbs hbi
    cases valids with
    | nil =>
      simp only [List.nil_append]
      unfold processBatches
      simp [hbs, hbi, importBatch]
    | cons v vs =>
      have hgv := hgood v (List.mem_cons_self v vs)
      have hgvs : ∀ x ∈ vs, x.sigOk = true ∧ x.importOk = true :=
        fun x hx => hgood x (List.mem_cons_of_mem v hx)
      simp only [List.cons_append]
      unfold processBatches
      dsimp only
      by_cases hdw : vs.dropWhile
          (fun x => decide (epochOfSlot x.slot ≤ epochOfSlot v.slot)) = []
      · have htw : vs.takeWhile
            (fun x => decide (epochOfSlot x.slot ≤ epochOfSlot v.slot)) = vs := by
          have h0 := List.takeWhile_append_dropWhile
            (fun x => decide (epochOfSlot x.slot ≤ epochOfSlot v.slot)) vs
          rw [hdw, List.append_nil] at h0
          exact h0
        have hall : ∀ a ∈ vs,
            (fun x => decide (epochOfSlot x.slot ≤ epochOfSlot v.slot)) a = true := by
          intro a ha
          show decide (epochOfSlot a.slot ≤ epochOfSlot v.slot) = true
          have ha' : a ∈ vs.takeWhile
              (fun x => decide (epochOfSlot x.slot ≤ epochOfSlot v.slot)) := by
            rw [htw]
            exact ha
          have hmem := List.mem_takeWhile_imp ha'
          exact hmem
        rw [takeWhile_append_all _ vs [bad] hall, dropWhile_append_all _ vs [bad] hall]
        by_cases hpb : epochOfSlot bad.slot ≤ epochOfSlot v.slot
        · have hpb' : decide (epochOfSlot bad.slot ≤ epochOfSlot v.slot) = true :=
            decide_eq_true hpb
          have h1 : [bad].takeWhile
              (fun x => decide (epochOfSlot x.slot ≤ epochOfSlot v.slot)) = [bad] := by
            simp [List.takeWhile_cons, hpb']
          have h2 : [bad].dropWhile
              (fun x => decide (epochOfSlot x.slot ≤ epochOfSlot v.slot)) = [] := by
            simp [List.dropWhile_cons, hpb']
          rw [h1, h2]
          have hallsig : ((v :: (vs ++ [bad])).all (·.sigOk)) = true := by
            rw [List.all_eq_true]
            intro x hx
            rcases List.mem_cons.mp hx with hx | hx
            · subst hx; exact hgv.1
            · rcases List.mem_append.mp hx with hx | hx
              · exact (hgvs x hx).1
              · rw [List.mem_singleton.mp hx]; exact hbs
          rw [hallsig]
          have himp := importBatch_bad_last (v :: vs) bad n store
            (by
              intro x hx
              rcases List.mem_cons.mp hx with hx | hx
              · subst hx; exact hgv.2
              · exact (hgvs x hx).2) hbi
          simp only [List.cons_append] at himp
          rw [himp]
          simp
        · have hpb' : decide (epochOfSlot bad.slot ≤ epochOfSlot v.slot) = false := by
            simp [hpb]
          have h1 : [bad].takeWhile
              (fun x => decide (epochOfSlot x.slot ≤ epochOfSlot v.slot)) = [] := by
            simp [List.takeWhile_cons, hpb']
          have h2 : [bad].dropWhile
              (fun x => decide (epochOfSlot x.slot ≤ epochOfSlot v.slot)) = [bad] := by
            simp [List.dropWhile_cons, hpb']
          rw [h1, h2, List.append_nil]
          have hallsig : ((v :: vs).all (·.sigOk)) = true := by
            rw [List.all_eq_true]
            intro x hx
            rcases List.mem_cons.mp hx with hx | hx
            · subst hx; exact hgv.1
            · exact (hgvs x hx).1
          rw [hallsig]
          have himp := importBatch_all_ok (v :: vs) n store
            (by
              intro x hx
              rcases List.mem_cons.mp hx with hx | hx
              · subst hx; exact hgv.2
              · exact (hgvs x hx).2)
          rw [himp]
          have hrec := ih 0
            (by simp only [List.length_cons] at hlen; omega) [] bad (n + (v :: vs).length)
            (store ++ (v :: vs).map (·.root)) rfl (by intro x hx; cases hx) hbs hbi
          simp only [List.nil_append] at hrec
          simp only [List.length_cons, List.map_cons, List.map_nil, List.append_nil,
            List.length_nil, Nat.add_zero] at hrec
          simpa using hrec
      · rw [takeWhile_append_stuck _ vs [bad] hdw, dropWhile_append_stuck _ vs [bad] hdw]
        have hallsig : ((v :: vs.takeWhile
            (fun x => decide (epochOfSlot x.slot ≤ epochOfSlot v.slot))).all (·.sigOk))
              = true := by
          rw [List.all_eq_true]
          intro x hx
          rcases List.mem_cons.mp hx with hx | hx
          · subst hx; exact hgv.1
          · exact (hgvs x ((List.takeWhile_sublist _).mem hx)).1
        rw [hallsig]
        have himp := importBatch_all_ok
          (v :: vs.takeWhile (fun x => decide (epochOfSlot x.slot ≤ epochOfSlot v.slot)))
          n store
          (by
            intro x hx
            rcases List.mem_cons.mp hx with hx | hx
            · subst hx; exact hgv.2
            · exact (hgvs x ((List.takeWhile_sublist _).mem hx)).2)
        rw [himp]
        have hdlen : (vs.dropWhile
            (fun x => decide (epochOfSlot x.slot ≤ epochOfSlot v.slot))).length < N := by
          have hsub : (vs.dropWhile
              (fun x => decide (epochOfSlot x.slot ≤ epochOfSlot v.slot))).length
                ≤ vs.length :=
            (List.dropWhile_sublist _).length_le
          simp only [List.length_cons] at hlen
          omega
        have hrec := ih _ hdlen
          (vs.dropWhile (fun x => decide (epochOfSlot x.slot ≤ epochOfSlot v.slot)))
          bad
          (n + (v :: vs.takeWhile
            (fun x => decide (epochOfSlot x.slot ≤ epochOfSlot v.slot))).length)
          (store ++ (v :: vs.takeWhile
            (fun x => decide (epochOfSlot x.slot ≤ epochOfSlot v.slot))).map (·.root))
          rfl
          (fun x hx => hgvs x ((List.dropWhile_sublist _).mem hx)) hbs hbi
        have hsplit := List.takeWhile_append_dropWhile
          (fun x => decide (epochOfSlot x.slot ≤ epochOfSlot v.slot)) vs
        have hlensplit : (vs.takeWhile
              (fun x => decide (epochOfSlot x.slot ≤ epochOfSlot v.slot))).length
            + (vs.dropWhile
              (fun x => decide (epochOfSlot x.slot ≤ epochOfSlot v.slot))).length
            = vs.length := by
          have := congrArg List.length hsplit
          rw [List.length_append] at this
          exact this
        have hmapsplit : (vs.takeWhile
              (fun x => decide (epochOfSlot x.slot ≤ epochOfSlot v.slot))).map (·.root)
            ++ (vs.dropWhile
              (fun x => decide (epochOfSlot x.slot ≤ epochOfSlot v.slot))).map (·.root)
            = vs.map (·.root) := by
          rw [← List.map_append, hsplit]
        simp only [List.length_cons, List.map_cons] at hrec ⊢
        simp only [hrec]
        rw [if_pos trivial]
        simp only [Prod.mk.injEq, ChainSegmentResult.failed.injEq]
        refine ⟨⟨by omega, trivial⟩, ?_⟩
        rw [← hmapsplit]
        simp

/-- C6: for a chain segment of importable blocks followed by one block
that fails import, `process_chain_segment` returns `Failed` reporting
exactly the number of blocks imported before the failure, those blocks
are appended to the store in segment order (hence retrievable), and the
failing block is not imported (the store gains only the valid prefix, so
a root absent before and distinct from the imported ones stays absent);
there is no block after the failing one, and import stops there. -/
theorem process_chain_segment_imports_prefix_until_failure :
    ∀ (valids : List SegBlock) (bad : SegBlock) (store : List Nat),
      (∀ v ∈ valids, v.forkOk = true ∧ v.relevancy = .relevant
        ∧ v.sigOk = true ∧ v.importOk = true) →
      bad.forkOk = true → bad.relevancy = .relevant →
      bad.sigOk = true → bad.importOk = false →
      (valids ++ [bad]).Chain' (fun a c => a.root = c.parentRoot ∧ a.slot < c.slot) →
      bad.root ∉ valids.map (·.root) →
      processChainSegment (valids ++ [bad]) store
        = (.failed valids.length .importError, store ++ valids.map (·.root))
      ∧ (bad.root ∉ store → bad.root ∉ store ++ valids.map (·.root)) := by
  intro valids bad store hgood hbf hbr hbs hbi hchain hnotin
  have hfilter := filterChainSegment_all_relevant (valids ++ [bad])
    (by
      intro b hb
      rcases List.mem_append.mp hb with hb | hb
      · exact ⟨(hgood b hb).1, (hgood b hb).2.1⟩
      · rw [List.mem_singleton.mp hb]; exact ⟨hbf, hbr⟩)
    hchain
  constructor
  · unfold processChainSegment
    simp only [hfilter]
    have hpb := processBatches_good_then_bad valids.length valids bad 0 store rfl
      (fun v hv => ⟨(hgood v hv).2.2.1, (hgood v hv).2.2.2⟩) hbs hbi
    rw [hpb]
    simp
  · intro hns hc
    rcases List.mem_append.mp hc with hc | hc
    · exact hns hc
    · exact hnotin hc

theorem process_chain_segment_imports_prefix_until_failure_witness :
    processChainSegment
      [⟨1, 0, 101, true, .relevant, true, true⟩,
       ⟨2, 101, 102, true, .relevant, true, true⟩,
       ⟨3, 102, 103, true, .relevant, true, false⟩] []
      = (.failed 2 .importError, [101, 102])
    ∧ (103 : Nat) ∉ ([] ++ [101, 102] : List Nat) := by
  have h := process_chain_segment_imports_prefix_until_failure
    [⟨1, 0, 101, true, .relevant, true, true⟩,
     ⟨2, 101, 102, true, .relevant, true, true⟩]
    ⟨3, 102, 103, true, .relevant, true, false⟩ []
    (by decide) rfl rfl rfl rfl (by simp [List.chain'_cons]) (by decide)
  exact ⟨h.1, h.2 (by decide)⟩
